import Mathlib

/-!
Shallow embedding of the packet-injection and delivery engine of the
`syslog_go` repository (raw-socket checksums, TCP handshake loop,
connection-pool liveness probe, rate limiter, syslog message codec),
together with proofs about the embedded definitions.

Byte sequences are modelled as `List Nat` whose elements are below 256.
Go fixed-width integer arithmetic is modelled on `Nat`/`Int` with explicit
reductions modulo 2^16 or 2^32 at the points where the source overflows.
-/

namespace SyslogGo

/-- Value of one 16-bit big-endian word `uint32(b1)<<8 | uint32(b2)` as
assembled by the checksum loops in `pkg/sender/rawsocket_linux.go`. -/
def word16 (b1 b2 : Nat) : Nat := (b1 <<< 8) ||| b2

/-- Summation loop of `calculateIPChecksum` (and of the TCP/UDP variants):
`for i := 0; i < count-1; i += 2 { sum += uint32(h[i])<<8 | uint32(h[i+1]) }`
followed by `if count&1 == 1 { sum += uint32(h[count-1]) << 8 }`.  The Go
accumulator is a `uint32`, hence the reduction modulo 2^32 per addition. -/
def checksumSumLoop : List Nat → Nat → Nat
  | [], sum => sum
  | [b], sum => (sum + (b <<< 8)) % 4294967296
  | b1 :: b2 :: rest, sum => checksumSumLoop rest ((sum + word16 b1 b2) % 4294967296)

/-- Carry-folding loop of `calculateIPChecksum`:
`for sum>>16 != 0 { sum = (sum & 0xFFFF) + (sum >> 16) }`.
Each pass strictly decreases `sum`, so running the loop body with the
initial value as a structural fuel bound computes the exact fixpoint of
the loop; `foldCarry_base` and `foldCarry_step` below recover the loop's
defining equations. -/
def foldCarryAux : Nat → Nat → Nat
  | 0, s => s
  | fuel + 1, s => if s >>> 16 = 0 then s else foldCarryAux fuel ((s &&& 65535) + (s >>> 16))

/-- Carry folding with enough fuel for any input. -/
def foldCarry (s : Nat) : Nat := foldCarryAux s s

/-- Embedding of `calculateIPChecksum` from `pkg/sender/rawsocket_linux.go`:
word summation, carry folding, then the one's complement `^uint16(sum)`,
which on the 16-bit truncation `sum % 2^16` is `65535 - sum % 2^16`. -/
def calculateIPChecksum (header : List Nat) : Nat :=
  65535 - foldCarry (checksumSumLoop header 0) % 65536

/-- Plain (unbounded) big-endian 16-bit word sum of a byte list. -/
def wordSum : List Nat → Nat
  | [] => 0
  | [b] => b * 256
  | b1 :: b2 :: rest => b1 * 256 + b2 + wordSum rest

/-- Big-endian 16-bit read `binary.BigEndian.Uint16(buf[i:i+2])`; the
receive buffer is modelled as zero beyond the datagram's bytes. -/
def be16 (buf : List Nat) (i : Nat) : Nat :=
  (buf.getD i 0 <<< 8) ||| buf.getD (i + 1) 0

/-- Big-endian 32-bit read `binary.BigEndian.Uint32(buf[i:i+4])`. -/
def be32 (buf : List Nat) (i : Nat) : Nat :=
  (buf.getD i 0 <<< 24) ||| (buf.getD (i + 1) 0 <<< 16) |||
    (buf.getD (i + 2) 0 <<< 8) ||| buf.getD (i + 3) 0

/-- Ephemeral source-port computation of `establishTCPConnection`:
`c.srcPort = uint16(time.Now().UnixNano()&0xFFFF) + 32768`, evaluated in
16-bit unsigned arithmetic (the addition wraps modulo 2^16). -/
def ephemeralSrcPort (nano : Nat) : Nat :=
  ((nano &&& 65535) + 32768) % 65536

/-- Connection identity used by the SYN_SENT acceptance filter. -/
structure HSConn where
  sourceIP : List Nat
  targetPort : Nat
  srcPort : Nat
deriving DecidableEq

/-- Outcome of one `syscall.Recvfrom` call on the raw socket: a timeout,
a datagram of bytes, or a non-timeout receive error. -/
inductive RecvOutcome where
  | timeout : RecvOutcome
  | datagram : List Nat → RecvOutcome
  | recvErr : RecvOutcome
deriving DecidableEq

/-- Result of the SYN_SENT retry loop of `establishTCPConnection`. -/
inductive HSResult where
  | established : Nat → Nat → HSResult
  | failed : HSResult
  | recvError : HSResult
deriving DecidableEq

/-- IP header length in bytes, `(buf[0] & 0x0F) * 4`. -/
def ipHeaderLen (buf : List Nat) : Nat := (buf.getD 0 0 &&& 15) * 4

/-- Acceptance filter applied to each received datagram in the SYN_SENT
loop (the chain of `continue` checks in `establishTCPConnection`):
length at least 40, IP version 4, protocol TCP (6), destination IP equal
to the spoofed source IP, TCP source port equal to `uint16(targetPort)`,
TCP destination port equal to the ephemeral port, TCP flags 0x12. -/
def acceptsSynAck (c : HSConn) (buf : List Nat) : Bool :=
  decide (40 ≤ buf.length) &&
  decide (buf.getD 0 0 >>> 4 = 4) &&
  decide (buf.getD 9 0 = 6) &&
  decide ((buf.drop 16).take 4 = c.sourceIP) &&
  decide (be16 buf (ipHeaderLen buf) = c.targetPort % 65536) &&
  decide (be16 buf (ipHeaderLen buf + 2) = c.srcPort) &&
  decide (buf.getD (ipHeaderLen buf + 13) 0 = 18)

/-- SYN_SENT retry loop of `establishTCPConnection`
(`for i := 0; i < maxRetries; i++`): each iteration performs exactly one
raw-socket read; a timeout or a datagram failing `acceptsSynAck` both
`continue` to the next iteration; an accepted SYN+ACK adopts
`ackNum = <reply acknowledgment field> + 1` (a `uint32` addition) and
`seqNum = <reply sequence field>`, sends an ACK (flags 0x10) and succeeds;
a non-timeout receive error returns immediately.  The value returned is
the loop result, the number of receive calls made, and the list of TCP
flag values sent by the loop; receive outcomes beyond the supplied list
are timeouts. -/
def synSentLoop (c : HSConn) : Nat → List RecvOutcome → HSResult × Nat × List Nat
  | 0, _ => (HSResult.failed, 0, [])
  | retries + 1, [] =>
    match synSentLoop c retries [] with
    | (r, n, s) => (r, n + 1, s)
  | retries + 1, RecvOutcome.timeout :: rest =>
    match synSentLoop c retries rest with
    | (r, n, s) => (r, n + 1, s)
  | _ + 1, RecvOutcome.recvErr :: _ => (HSResult.recvError, 1, [])
  | retries + 1, RecvOutcome.datagram buf :: rest =>
    if acceptsSynAck c buf then
      (HSResult.established (be32 buf (ipHeaderLen buf + 4))
        ((be32 buf (ipHeaderLen buf + 8) + 1) % 4294967296), 1, [16])
    else
      match synSentLoop c retries rest with
      | (r, n, s) => (r, n + 1, s)

/-- Retry budget of the SYN_SENT loop (`maxRetries := 5`). -/
def maxRetries : Nat := 5

/-- Outcome of the 1-millisecond-deadline probe read in
`isConnectionValid`: a completed read (`err == nil`), a timeout
(`net.Error` with `Timeout()`), or any other error. -/
inductive ProbeRead where
  | ok : Nat → ProbeRead
  | timeoutErr : ProbeRead
  | otherErr : ProbeRead
deriving DecidableEq

/-- Embedding of `ConnectionPool.isConnectionValid`
(pkg/sender/connection.go); `none` models a nil `net.Conn`.  UDP pools
treat every non-nil connection as valid; for other protocols the probe
read decides: timeout → valid, completed read (`err == nil`) → valid,
any other error → invalid. -/
def isConnectionValid (protocol : String) (conn : Option ProbeRead) : Bool :=
  match conn with
  | none => false
  | some probe =>
    if protocol = "udp" then true
    else
      match probe with
      | ProbeRead.timeoutErr => true
      | ProbeRead.ok _ => true
      | ProbeRead.otherErr => false

/-- One `Allow` call of the rate limiter (pkg/sender/connection.go,
second `RateLimiter` version): at call time `now` with reference time
`last`, a grant advances the reference time by the number of whole
elapsed intervals, `lastTime += (elapsed/interval) * interval`.  Times
are nanosecond counts; Go's negative-`Duration` comparison against a
positive interval behaves like the truncated `Nat` subtraction here. -/
def allowStep (interval last now : Nat) : Bool × Nat :=
  if interval ≤ now - last then
    (true, last + ((now - last) / interval) * interval)
  else
    (false, last)

/-- One `Wait` call of the rate limiter: returns the grant time (after
any sleep) and the new reference time.  The fast path mirrors `Allow`;
the slow path sleeps `interval - elapsed` and advances the reference by
exactly one interval. -/
def waitStep (interval last now : Nat) : Nat × Nat :=
  if interval ≤ now - last then
    (now, last + ((now - last) / interval) * interval)
  else
    (now + (interval - (now - last)), last + interval)

/-- A sequence of `Allow` calls at the given monotone call times:
number of grants issued and final reference time. -/
def runAllow (interval : Nat) : Nat → List Nat → Nat × Nat
  | last, [] => (0, last)
  | last, t :: ts =>
    match allowStep interval last t with
    | (granted, last') =>
      match runAllow interval last' ts with
      | (n, lf) => (n + (if granted then 1 else 0), lf)

/-- Interval derivation of `NewRateLimiter` and `SetRate`:
`time.Second / time.Duration(ratePerSecond)`, an unguarded `int64`
division.  Go integer division panics on a zero divisor, modelled as
`none`; `Int.tdiv` truncates toward zero exactly as Go's `/`. -/
def rateLimiterInterval (ratePerSecond : Int) : Option Int :=
  if ratePerSecond = 0 then none
  else some (Int.tdiv 1000000000 ratePerSecond)

/-- Datagrams the SYN_SENT loop silently discards before going around the
loop again: timeouts and datagrams failing the acceptance filter. -/
def discarded (c : HSConn) : RecvOutcome → Bool
  | RecvOutcome.timeout => true
  | RecvOutcome.datagram buf => !(acceptsSynAck c buf)
  | RecvOutcome.recvErr => false

/-- Concrete handshake parameters for counterexamples and witnesses:
spoofed source 192.168.1.1, target port 514, ephemeral port 40000. -/
def handshakeConn : HSConn :=
  { sourceIP := [192, 168, 1, 1], targetPort := 514, srcPort := 40000 }

/-- Concrete valid SYN+ACK reply for `handshakeConn`: 20-byte IPv4 header
(protocol 6, destination 192.168.1.1) and 20-byte TCP header with source
port 514, destination port 40000, sequence number 1000, acknowledgment
number 2000, flags 0x12. -/
def synAckPacket : List Nat :=
  [69, 0, 0, 40, 0, 0, 0, 0, 64, 6, 0, 0, 192, 168, 1, 2, 192, 168, 1, 1,
   2, 2, 156, 64, 0, 0, 3, 232, 0, 0, 7, 208, 80, 18, 255, 255, 0, 0, 0, 0]

/-- Concrete 40-byte datagram failing the acceptance filter (version 0). -/
def junkPacket : List Nat := List.replicate 40 0

/-- Decimal digit character. -/
def digitChar (d : Nat) : Char := Char.ofNat (48 + d)

/-- Decimal rendering of a natural number (the `fmt` verb `%d`); the value
itself serves as structural fuel for the division recursion, and
`natDecAux_congr` below shows any sufficient fuel gives the same digits. -/
def natDecAux : Nat → Nat → List Char → List Char
  | 0, n, acc => digitChar (n % 10) :: acc
  | fuel + 1, n, acc =>
    if n < 10 then digitChar n :: acc
    else natDecAux fuel (n / 10) (digitChar (n % 10) :: acc)

/-- Decimal digits of a natural number. -/
def natDec (n : Nat) : List Char := natDecAux n n []

/-- Decimal rendering of a Go `int` by `%d`: minus sign then digits. -/
def intDec (p : Int) : List Char :=
  if p < 0 then '-' :: natDec p.natAbs else natDec p.toNat

/-- Zero-padded two-digit rendering (Go layout components `02`, `15`,
`04`, `05`); values of 100 or more keep all their digits, as in Go. -/
def pad2 (n : Nat) : List Char := if n < 10 then '0' :: natDec n else natDec n

/-- Zero-padded three-digit rendering (Go layout `.000` milliseconds). -/
def pad3 (n : Nat) : List Char :=
  if n < 10 then '0' :: '0' :: natDec n
  else if n < 100 then '0' :: natDec n
  else natDec n

/-- Zero-padded four-digit rendering (Go layout `2006` year). -/
def pad4 (n : Nat) : List Char :=
  if n < 10 then '0' :: '0' :: '0' :: natDec n
  else if n < 100 then '0' :: '0' :: natDec n
  else if n < 1000 then '0' :: natDec n
  else natDec n

/-- Broken-down instant with millisecond precision, modelling the fields
Go `time.Time` formatting reads.  `month` is zero-indexed (0 = January). -/
structure GoTime where
  year : Nat
  month : Fin 12
  day : Nat
  hour : Nat
  minute : Nat
  second : Nat
  millis : Nat
deriving DecidableEq

/-- Model of a Go `time.Time` value: the broken-down local view (used by
`Format` without `.UTC()`) and the broken-down UTC view (used by
`.UTC().Format`). -/
structure TimeModel where
  loc : GoTime
  utc : GoTime
deriving DecidableEq

/-- Three-letter English month abbreviation (Go layout `Jan`). -/
def monthAbbrev (m : Fin 12) : List Char :=
  match m.val with
  | 0 => ['J', 'a', 'n']
  | 1 => ['F', 'e', 'b']
  | 2 => ['M', 'a', 'r']
  | 3 => ['A', 'p', 'r']
  | 4 => ['M', 'a', 'y']
  | 5 => ['J', 'u', 'n']
  | 6 => ['J', 'u', 'l']
  | 7 => ['A', 'u', 'g']
  | 8 => ['S', 'e', 'p']
  | 9 => ['O', 'c', 't']
  | 10 => ['N', 'o', 'v']
  | _ => ['D', 'e', 'c']

/-- Go layout `Jan 02 15:04:05` on the local view (used by RFC3164). -/
def rfc3164Timestamp (t : GoTime) : List Char :=
  monthAbbrev t.month ++ [' '] ++ pad2 t.day ++ [' '] ++
    pad2 t.hour ++ [':'] ++ pad2 t.minute ++ [':'] ++ pad2 t.second

/-- Go layout `2006-01-02T15:04:05.000Z` on the UTC view (used by
RFC5424); the month renders one-based. -/
def rfc5424Timestamp (t : GoTime) : List Char :=
  pad4 t.year ++ ['-'] ++ pad2 (t.month.val + 1) ++ ['-'] ++ pad2 t.day ++
    ['T'] ++ pad2 t.hour ++ [':'] ++ pad2 t.minute ++ [':'] ++ pad2 t.second ++
    ['.'] ++ pad3 t.millis ++ ['Z']

/-- The two wire formats of the codec (`SyslogFormat` constants). -/
inductive SyslogFormat where
  | rfc3164 : SyslogFormat
  | rfc5424 : SyslogFormat
deriving DecidableEq

/-- Embedding of the `Message` struct of pkg/syslog/protocol.go; strings
are `List Char`, and the format field (`Format` in Go, which there shares
its name with the encoding method) is called `Fmt`. -/
structure Message where
  Priority : Int
  Timestamp : TimeModel
  Hostname : List Char
  Tag : List Char
  PID : List Char
  Content : List Char
  Fmt : SyslogFormat
deriving DecidableEq

/-- Fallback label used when the tag/app-name is empty. -/
def defaultTag : List Char := ("syslog_sender").toList

/-- Tag part of `formatRFC3164`: `TAG[PID]` when a PID is present, the
bare tag otherwise, falling back to the default label when empty. -/
def rfc3164TagPart (m : Message) : List Char :=
  let tagPart := if m.PID ≠ [] then m.Tag ++ ['['] ++ m.PID ++ [']'] else m.Tag
  if tagPart = [] then defaultTag else tagPart

/-- Embedding of `formatRFC3164`:
`fmt.Sprintf("<%d>%s %s %s: %s", Priority, timestamp, Hostname, tagPart, Content)`. -/
def formatRFC3164 (m : Message) : List Char :=
  ['<'] ++ intDec m.Priority ++ ['>'] ++ rfc3164Timestamp m.Timestamp.loc ++
    [' '] ++ m.Hostname ++ [' '] ++ rfc3164TagPart m ++ [':', ' '] ++ m.Content

/-- Hostname field of `formatRFC5424`: `-` when empty. -/
def rfc5424Hostname (m : Message) : List Char :=
  if m.Hostname = [] then ['-'] else m.Hostname

/-- App-name field of `formatRFC5424`: the default label when empty. -/
def rfc5424AppName (m : Message) : List Char :=
  if m.Tag = [] then defaultTag else m.Tag

/-- ProcID field of `formatRFC5424`: `-` when empty. -/
def rfc5424ProcID (m : Message) : List Char :=
  if m.PID = [] then ['-'] else m.PID

/-- Embedding of `formatRFC5424`:
`fmt.Sprintf("<%d>1 %s %s %s %s %s %s %s", ...)` with msgID and
structured data always `-`. -/
def formatRFC5424 (m : Message) : List Char :=
  ['<'] ++ intDec m.Priority ++ ['>', '1', ' '] ++
    rfc5424Timestamp m.Timestamp.utc ++ [' '] ++ rfc5424Hostname m ++ [' '] ++
    rfc5424AppName m ++ [' '] ++ rfc5424ProcID m ++ [' ', '-', ' ', '-', ' '] ++
    m.Content

/-- Embedding of the `Format()` dispatch method: RFC5424 messages use
`formatRFC5424`, everything else `formatRFC3164`. -/
def Message.encode (m : Message) : List Char :=
  match m.Fmt with
  | SyslogFormat.rfc5424 => formatRFC5424 m
  | SyslogFormat.rfc3164 => formatRFC3164 m

/-- Embedding of `NewMessage`: stores the given priority unvalidated and
leaves the PID empty. -/
def NewMessage (priority : Int) (hostname tag content : List Char)
    (format : SyslogFormat) (now : TimeModel) : Message :=
  { Priority := priority, Timestamp := now, Hostname := hostname,
    Tag := tag, PID := [], Content := content, Fmt := format }

/-- Splits a character list at the first occurrence of `stop`, returning
the parts before and after it, or `none` when `stop` does not occur. -/
def splitOn (stop : Char) : List Char → Option (List Char × List Char)
  | [] => none
  | c :: rest =>
    if c = stop then some ([], rest)
    else
      match splitOn stop rest with
      | none => none
      | some (t, r) => some (c :: t, r)

/-- One non-empty space-delimited token (a regex `\S+` match followed by
a space), with the remainder after the space. -/
def splitToken (l : List Char) : Option (List Char × List Char) :=
  match splitOn ' ' l with
  | none => none
  | some (t, r) => if t = [] then none else some (t, r)

/-- Message produced by the decoders: the six fields the round-trip
contract compares, plus the raw timestamp text (the timestamp value's
reconstruction is documented as lossy and is not compared). -/
structure Decoded where
  Priority : Int
  TsText : List Char
  Hostname : List Char
  Tag : List Char
  PID : List Char
  Content : List Char
  Fmt : SyslogFormat
deriving DecidableEq

/-- True when every character is a decimal digit. -/
def allDigits (l : List Char) : Bool := l.all Char.isDigit

/-- Numeric value of a digit string. -/
def parseNat (l : List Char) : Nat :=
  l.foldl (fun a c => a * 10 + (c.toNat - 48)) 0

/-- RFC5424 fields equal to `-` decode to empty strings. -/
def dashEmpty (l : List Char) : List Char := if l = ['-'] then [] else l

/-- Modelled from the spec: `ParseRFC5424` — the decoder's source is not
under src/, only its callers in the receiving server are.  Per §4.1 the
line is matched structurally as `<PRI>1 TIMESTAMP HOST APP PROCID MSGID
SD CONTENT` (PRI all digits, six space-delimited non-empty tokens, the
rest of the line as content) and fields equal to `-` decode to empty. -/
def ParseRFC5424 (l : List Char) : Option Decoded :=
  match l with
  | '<' :: l1 =>
    match splitOn '>' l1 with
    | some (ds, l2) =>
      if ds = [] then none
      else if !allDigits ds then none
      else
        match l2 with
        | '1' :: ' ' :: l3 =>
          match splitToken l3 with
          | some (ts, l4) =>
            match splitToken l4 with
            | some (host, l5) =>
              match splitToken l5 with
              | some (app, l6) =>
                match splitToken l6 with
                | some (procid, l7) =>
                  match splitToken l7 with
                  | some (_msgid, l8) =>
                    match splitToken l8 with
                    | some (_sd, content) =>
                      some { Priority := (parseNat ds : Int), TsText := ts,
                             Hostname := dashEmpty host, Tag := dashEmpty app,
                             PID := dashEmpty procid, Content := content,
                             Fmt := SyslogFormat.rfc5424 }
                    | none => none
                  | none => none
                | none => none
              | none => none
            | none => none
          | none => none
        | _ => none
    | none => none
  | _ => none

/-- Splits the RFC3164 `TAG[PID]` tag part into tag and PID; without a
bracket the whole part is the tag and the PID is empty. -/
def parseTagPid (tp : List Char) : Option (List Char × List Char) :=
  match splitOn '[' tp with
  | none => some (tp, [])
  | some (tg, rest) =>
    match splitOn ']' rest with
    | none => none
    | some (pid, tail) => if tail = [] then some (tg, pid) else none

/-- Modelled from the spec: `ParseRFC3164` — the decoder's source is not
under src/.  Per §4.1 the line is matched structurally as
`<PRI>Mon DD HH:MM:SS HOST TAG[PID]: CONTENT`: PRI all digits, an
alphabetic month token, a digit day token, a digit-and-colon time token,
a host token, a tag part running to the first colon with an optional
`[PID]` suffix, then a space and the content. -/
def ParseRFC3164 (l : List Char) : Option Decoded :=
  match l with
  | '<' :: l1 =>
    match splitOn '>' l1 with
    | some (ds, l2) =>
      if ds = [] then none
      else if !allDigits ds then none
      else
        match splitToken l2 with
        | some (mon, l3) =>
          if !(mon.all Char.isAlpha) then none
          else
            match splitToken l3 with
            | some (dayTok, l4) =>
              if !allDigits dayTok then none
              else
                match splitToken l4 with
                | some (timeTok, l5) =>
                  if !(timeTok.all fun c => c.isDigit || c = ':') then none
                  else
                    match splitToken l5 with
                    | some (host, l6) =>
                      match splitOn ':' l6 with
                      | some (tagPart, l7) =>
                        if tagPart = [] then none
                        else
                          match l7 with
                          | ' ' :: content =>
                            match parseTagPid tagPart with
                            | some (tag, pid) =>
                              some { Priority := (parseNat ds : Int),
                                     TsText := mon ++ [' '] ++ dayTok ++ [' '] ++ timeTok,
                                     Hostname := host, Tag := tag, PID := pid,
                                     Content := content,
                                     Fmt := SyslogFormat.rfc3164 }
                            | none => none
                          | _ => none
                      | none => none
                    | none => none
                | none => none
            | none => none
        | none => none
    | none => none
  | _ => none

/-- Decoder dispatch as performed by the receiving server (`handleUDP`,
`handleTCPConnection`): try RFC5424 first, fall back to RFC3164. -/
def decode (l : List Char) : Option Decoded :=
  match ParseRFC5424 l with
  | some d => some d
  | none => ParseRFC3164 l

/-- Concrete timestamp for codec counterexamples and witnesses:
2024-01-02 03:04:05.006, with identical local and UTC views. -/
def sampleTime : TimeModel :=
  { loc := { year := 2024, month := ⟨0, by omega⟩, day := 2, hour := 3,
             minute := 4, second := 5, millis := 6 },
    utc := { year := 2024, month := ⟨0, by omega⟩, day := 2, hour := 3,
             minute := 4, second := 5, millis := 6 } }

/-- Concrete RFC5424 message with an empty tag (app-name). -/
def msgEmptyTag : Message :=
  { Priority := 13, Timestamp := sampleTime, Hostname := ("myhost").toList,
    Tag := [], PID := [], Content := ("hello").toList,
    Fmt := SyslogFormat.rfc5424 }

/-- Concrete RFC3164 message exercising every compared field. -/
def msgRoundTrip : Message :=
  { Priority := 13, Timestamp := sampleTime, Hostname := ("myhost").toList,
    Tag := ("app").toList, PID := ("42").toList,
    Content := ("hi there").toList, Fmt := SyslogFormat.rfc3164 }

/-- For a byte-sized low half, the bitwise or of the two disjoint halves
of a 16-bit word is plain addition. -/
theorem word16_eq (b1 b2 : Nat) (h : b2 < 256) : word16 b1 b2 = b1 * 256 + b2 := by
  unfold word16
  rw [Nat.shiftLeft_eq]
  have h2 : (256 : Nat) = 2 ^ 8 := by norm_num
  rw [h2, Nat.mul_comm]
  exact (Nat.mul_add_lt_is_or (by omega) b1).symm

theorem shiftRight16_eq (s : Nat) : s >>> 16 = s / 65536 := by
  rw [Nat.shiftRight_eq_div_pow]

theorem and65535_eq (s : Nat) : s &&& 65535 = s % 65536 := by
  have h : (65535 : Nat) = 2 ^ 16 - 1 := by norm_num
  rw [h, Nat.and_pow_two_sub_one_eq_mod]

theorem foldCarryAux_congr (s : Nat) :
    ∀ f g, s ≤ f → s ≤ g → foldCarryAux f s = foldCarryAux g s := by
  induction s using Nat.strong_induction_on with
  | _ s ih =>
    intro f g hf hg
    by_cases h0 : s >>> 16 = 0
    · have hall : ∀ k, foldCarryAux k s = s := by
        intro k
        cases k with
        | zero => rfl
        | succ k => simp [foldCarryAux, h0]
      rw [hall f, hall g]
    · have hs : 65536 ≤ s := by
        rw [shiftRight16_eq] at h0
        omega
      have harg : (s &&& 65535) + (s >>> 16) < s := by
        rw [shiftRight16_eq, and65535_eq]
        omega
      cases f with
      | zero => omega
      | succ f =>
        cases g with
        | zero => omega
        | succ g =>
          simp only [foldCarryAux, h0, if_false, if_neg h0]
          exact ih _ harg f g (by omega) (by omega)

/-- Exit equation of the carry-folding loop. -/
theorem foldCarry_base (s : Nat) (h : s < 65536) : foldCarry s = s := by
  unfold foldCarry
  have h0 : s >>> 16 = 0 := by
    rw [shiftRight16_eq]
    omega
  cases s with
  | zero => rfl
  | succ t => simp [foldCarryAux, h0]

/-- Step equation of the carry-folding loop. -/
theorem foldCarry_step (s : Nat) (h : 65536 ≤ s) :
    foldCarry s = foldCarry (s % 65536 + s / 65536) := by
  have h0 : s >>> 16 ≠ 0 := by
    rw [shiftRight16_eq]
    omega
  unfold foldCarry
  cases hs : s with
  | zero => omega
  | succ t =>
    rw [← hs]
    have hstep : foldCarryAux s s = foldCarryAux t ((s &&& 65535) + (s >>> 16)) := by
      rw [hs]
      simp only [foldCarryAux]
      rw [← hs, if_neg h0]
    rw [hstep, shiftRight16_eq, and65535_eq]
    apply foldCarryAux_congr
    · omega
    · omega

theorem foldCarry_lt (s : Nat) : foldCarry s < 65536 := by
  induction s using Nat.strong_induction_on with
  | _ s ih =>
    by_cases h : s < 65536
    · rw [foldCarry_base s h]
      exact h
    · rw [foldCarry_step s (by omega)]
      exact ih _ (by omega)

theorem foldCarry_mod (s : Nat) : foldCarry s % 65535 = s % 65535 := by
  induction s using Nat.strong_induction_on with
  | _ s ih =>
    by_cases h : s < 65536
    · rw [foldCarry_base s h]
    · rw [foldCarry_step s (by omega)]
      rw [ih _ (by omega)]
      omega

theorem foldCarry_pos (s : Nat) (h : 0 < s) : 0 < foldCarry s := by
  induction s using Nat.strong_induction_on with
  | _ s ih =>
    by_cases hlt : s < 65536
    · rw [foldCarry_base s hlt]
      exact h
    · rw [foldCarry_step s (by omega)]
      exact ih _ (by omega) (by omega)

/-- A positive sum divisible by 65535 folds to exactly 65535. -/
theorem foldCarry_eq_65535 (s : Nat) (h0 : 0 < s) (hm : s % 65535 = 0) :
    foldCarry s = 65535 := by
  have h1 := foldCarry_lt s
  have h2 := foldCarry_mod s
  have h3 := foldCarry_pos s h0
  omega

/-- With no `uint32` overflow, the summation loop computes the plain word sum. -/
theorem checksumSumLoop_eq :
    ∀ (l : List Nat) (a : Nat), (∀ b ∈ l, b < 256) →
      a + wordSum l < 4294967296 → checksumSumLoop l a = a + wordSum l
  | [], a, _, _ => by simp [checksumSumLoop, wordSum]
  | [b], a, hb, h => by
    have hb' : b < 256 := hb b (by simp)
    simp only [checksumSumLoop, wordSum] at *
    rw [Nat.shiftLeft_eq]
    norm_num
    omega
  | b1 :: b2 :: rest, a, hb, h => by
    have hb2 : b2 < 256 := hb b2 (by simp)
    have hrest : ∀ b ∈ rest, b < 256 := by
      intro b hbr
      exact hb b (by simp [hbr])
    simp only [checksumSumLoop, wordSum] at *
    rw [word16_eq b1 b2 hb2]
    rw [Nat.mod_eq_of_lt (by omega)]
    rw [checksumSumLoop_eq rest (a + (b1 * 256 + b2)) hrest (by omega)]
    omega

/-- Bound on the word sum of a byte list in terms of its length. -/
theorem wordSum_le :
    ∀ (l : List Nat), (∀ b ∈ l, b < 256) → wordSum l ≤ 65535 * ((l.length + 1) / 2)
  | [], _ => by simp [wordSum]
  | [b], hb => by
    have hb' : b < 256 := hb b (by simp)
    simp only [wordSum, List.length_singleton]
    omega
  | b1 :: b2 :: rest, hb => by
    have hb1 : b1 < 256 := hb b1 (by simp)
    have hb2 : b2 < 256 := hb b2 (by simp)
    have hrest : ∀ b ∈ rest, b < 256 := by
      intro b hbr
      exact hb b (by simp [hbr])
    have ih := wordSum_le rest hrest
    simp only [wordSum, List.length_cons]
    omega

/-- Word sums split across a boundary at an even offset. -/
theorem wordSum_append :
    ∀ (l₁ l₂ : List Nat), l₁.length % 2 = 0 →
      wordSum (l₁ ++ l₂) = wordSum l₁ + wordSum l₂
  | [], l₂, _ => by simp [wordSum]
  | [b], _, h => by simp at h
  | b1 :: b2 :: rest, l₂, h => by
    have h' : rest.length % 2 = 0 := by
      simp only [List.length_cons] at h
      omega
    simp only [List.cons_append, wordSum, List.append_eq]
    rw [wordSum_append rest l₂ h']
    omega

/-- Word sum of a packet with a two-byte field inserted at an even offset. -/
theorem wordSum_insert (pre post : List Nat) (x y : Nat)
    (heven : pre.length % 2 = 0) :
    wordSum (pre ++ x :: y :: post) = wordSum pre + (x * 256 + y) + wordSum post := by
  rw [wordSum_append pre (x :: y :: post) heven]
  simp only [wordSum]
  omega

/-- Checksum of a bounded-size byte packet as the folded word sum. -/
theorem calculateIPChecksum_eq (l : List Nat) (hb : ∀ b ∈ l, b < 256)
    (hlen : l.length ≤ 65535) :
    calculateIPChecksum l = 65535 - foldCarry (wordSum l) := by
  have hsum : wordSum l ≤ 65535 * 32768 := by
    calc wordSum l ≤ 65535 * ((l.length + 1) / 2) := wordSum_le l hb
    _ ≤ 65535 * 32768 := by
        apply Nat.mul_le_mul_left
        omega
  unfold calculateIPChecksum
  rw [checksumSumLoop_eq l 0 hb (by omega)]
  have hlt := foldCarry_lt (0 + wordSum l)
  rw [Nat.mod_eq_of_lt hlt]
  norm_num

/-- C1: for every byte sequence whose 16-bit checksum field (a zeroed,
16-bit-aligned two-byte field at even offset `pre.length`) is zeroed,
writing the value returned by `calculateIPChecksum` into that field in
big-endian order and recomputing the checksum over the modified bytes
yields zero.  The computation sums 16-bit big-endian words, pads a
trailing odd byte with a zero low byte, folds carries until none remain,
and returns the one's complement of the folded sum. -/
theorem C1_checksum_self_verifies (pre post : List Nat)
    (hpre : ∀ b ∈ pre, b < 256) (hpost : ∀ b ∈ post, b < 256)
    (heven : pre.length % 2 = 0)
    (hlen : pre.length + 2 + post.length ≤ 65535) :
    calculateIPChecksum
      (pre ++ calculateIPChecksum (pre ++ 0 :: 0 :: post) / 256 ::
        calculateIPChecksum (pre ++ 0 :: 0 :: post) % 256 :: post) = 0 := by
  have hbytes : ∀ b ∈ pre ++ 0 :: 0 :: post, b < 256 := by
    intro b hbmem
    rcases List.mem_append.mp hbmem with h | h
    · exact hpre b h
    · simp only [List.mem_cons] at h
      rcases h with h | h | h
      · omega
      · omega
      · exact hpost b h
  have hlen0 : (pre ++ 0 :: 0 :: post).length ≤ 65535 := by
    simp only [List.length_append, List.length_cons]
    omega
  have hc := calculateIPChecksum_eq (pre ++ 0 :: 0 :: post) hbytes hlen0
  have hfS := foldCarry_lt (wordSum (pre ++ 0 :: 0 :: post))
  set c := calculateIPChecksum (pre ++ 0 :: 0 :: post) with hcdef
  set S := wordSum (pre ++ 0 :: 0 :: post) with hSdef
  have hcle : c ≤ 65535 := by omega
  have hmodbytes : ∀ b ∈ pre ++ c / 256 :: c % 256 :: post, b < 256 := by
    intro b hbmem
    rcases List.mem_append.mp hbmem with h | h
    · exact hpre b h
    · simp only [List.mem_cons] at h
      rcases h with h | h | h
      · omega
      · omega
      · exact hpost b h
  have hlenm : (pre ++ c / 256 :: c % 256 :: post).length ≤ 65535 := by
    simp only [List.length_append, List.length_cons]
    omega
  have hcm := calculateIPChecksum_eq (pre ++ c / 256 :: c % 256 :: post) hmodbytes hlenm
  have hwm : wordSum (pre ++ c / 256 :: c % 256 :: post) = S + c := by
    rw [wordSum_insert pre post (c / 256) (c % 256) heven]
    rw [hSdef, wordSum_insert pre post 0 0 heven]
    omega
  have hpos : 0 < S + c := by
    by_cases hzero : S = 0
    · have hf0 : foldCarry S = 0 := by
        rw [hzero]
        exact foldCarry_base 0 (by omega)
      omega
    · omega
  have hdiv : (S + c) % 65535 = 0 := by
    have h2 := foldCarry_mod S
    omega
  have h65535 := foldCarry_eq_65535 (S + c) hpos hdiv
  rw [hcm, hwm, h65535]

/-- Witness for C1 at a concrete four-byte packet around a zeroed field. -/
theorem C1_checksum_self_verifies_witness :
    (∀ b ∈ [69, 0], b < 256) ∧ (∀ b ∈ [1, 2], b < 256) ∧
    ([69, 0] : List Nat).length % 2 = 0 ∧
    ([69, 0] : List Nat).length + 2 + ([1, 2] : List Nat).length ≤ 65535 ∧
    calculateIPChecksum
      ([69, 0] ++ calculateIPChecksum ([69, 0] ++ 0 :: 0 :: [1, 2]) / 256 ::
        calculateIPChecksum ([69, 0] ++ 0 :: 0 :: [1, 2]) % 256 :: [1, 2]) = 0 :=
  ⟨by decide, by decide, by decide, by decide,
    C1_checksum_self_verifies [69, 0] [1, 2] (by decide) (by decide) (by decide)
      (by decide)⟩

theorem natDecAux_congr (n : Nat) :
    ∀ f g acc, n ≤ f → n ≤ g → natDecAux f n acc = natDecAux g n acc := by
  induction n using Nat.strong_induction_on with
  | _ n ih =>
    intro f g acc hf hg
    by_cases h10 : n < 10
    · have hall : ∀ k, natDecAux k n acc = digitChar n :: acc := by
        intro k
        cases k with
        | zero => simp [natDecAux, Nat.mod_eq_of_lt h10]
        | succ k => simp [natDecAux, h10]
      rw [hall f, hall g]
    · cases f with
      | zero => omega
      | succ f =>
        cases g with
        | zero => omega
        | succ g =>
          simp only [natDecAux, if_neg h10]
          exact ih (n / 10) (by omega) f g _ (by omega) (by omega)

theorem natDecAux_acc (f : Nat) :
    ∀ n acc, n ≤ f → natDecAux f n acc = natDecAux f n [] ++ acc := by
  induction f with
  | zero =>
    intro n acc _
    simp [natDecAux]
  | succ f ih =>
    intro n acc hn
    by_cases h10 : n < 10
    · simp [natDecAux, h10]
    · simp only [natDecAux, if_neg h10]
      rw [ih (n / 10) _ (by omega), ih (n / 10) [digitChar (n % 10)] (by omega)]
      simp

theorem natDec_lt10 (n : Nat) (h : n < 10) : natDec n = [digitChar n] := by
  unfold natDec
  cases n with
  | zero => simp [natDecAux]
  | succ m => simp [natDecAux, h]

theorem natDec_ge10 (n : Nat) (h : 10 ≤ n) :
    natDec n = natDec (n / 10) ++ [digitChar (n % 10)] := by
  unfold natDec
  obtain ⟨m, rfl⟩ : ∃ m, n = m + 1 := ⟨n - 1, by omega⟩
  simp only [natDecAux, if_neg (by omega : ¬ m + 1 < 10)]
  rw [natDecAux_congr ((m + 1) / 10) m ((m + 1) / 10) _ (by omega) (by omega)]
  rw [natDecAux_acc ((m + 1) / 10) ((m + 1) / 10) [digitChar ((m + 1) % 10)]
    (by omega)]

theorem digitChar_isDigit (d : Nat) (h : d < 10) : (digitChar d).isDigit = true := by
  interval_cases d <;> decide

theorem digitChar_toNat (d : Nat) (h : d < 10) : (digitChar d).toNat = 48 + d := by
  interval_cases d <;> decide

theorem natDec_ne_nil (n : Nat) : natDec n ≠ [] := by
  by_cases h : n < 10
  · rw [natDec_lt10 n h]
    simp
  · rw [natDec_ge10 n (by omega)]
    simp

theorem mem_natDec (n : Nat) : ∀ c ∈ natDec n, c.isDigit = true := by
  induction n using Nat.strong_induction_on with
  | _ n ih =>
    intro c hc
    by_cases h : n < 10
    · rw [natDec_lt10 n h] at hc
      simp at hc
      rw [hc]
      exact digitChar_isDigit n h
    · rw [natDec_ge10 n (by omega)] at hc
      rcases List.mem_append.mp hc with h1 | h1
      · exact ih (n / 10) (by omega) c h1
      · simp at h1
        rw [h1]
        exact digitChar_isDigit (n % 10) (by omega)

theorem parseNat_natDec (n : Nat) : parseNat (natDec n) = n := by
  induction n using Nat.strong_induction_on with
  | _ n ih =>
    by_cases h : n < 10
    · rw [natDec_lt10 n h]
      simp [parseNat, digitChar_toNat n h]
    · rw [natDec_ge10 n (by omega)]
      unfold parseNat at *
      rw [List.foldl_append]
      simp only [List.foldl]
      rw [ih (n / 10) (by omega), digitChar_toNat (n % 10) (by omega)]
      omega

theorem allDigits_natDec (n : Nat) : allDigits (natDec n) = true := by
  unfold allDigits
  rw [List.all_eq_true]
  intro c hc
  exact mem_natDec n c hc

theorem mem_pad2 (n : Nat) : ∀ c ∈ pad2 n, c.isDigit = true := by
  intro c hc
  unfold pad2 at hc
  split at hc
  · rcases List.mem_cons.mp hc with hc | hc
    · rw [hc]
      decide
    · exact mem_natDec n c hc
  · exact mem_natDec n c hc

theorem mem_pad3 (n : Nat) : ∀ c ∈ pad3 n, c.isDigit = true := by
  intro c hc
  unfold pad3 at hc
  split at hc
  · rcases List.mem_cons.mp hc with hc | hc
    · rw [hc]
      decide
    · rcases List.mem_cons.mp hc with hc | hc
      · rw [hc]
        decide
      · exact mem_natDec n c hc
  · split at hc
    · rcases List.mem_cons.mp hc with hc | hc
      · rw [hc]
        decide
      · exact mem_natDec n c hc
    · exact mem_natDec n c hc

theorem mem_pad4 (n : Nat) : ∀ c ∈ pad4 n, c.isDigit = true := by
  intro c hc
  unfold pad4 at hc
  split at hc
  · rcases List.mem_cons.mp hc with hc | hc
    · rw [hc]
      decide
    · rcases List.mem_cons.mp hc with hc | hc
      · rw [hc]
        decide
      · rcases List.mem_cons.mp hc with hc | hc
        · rw [hc]
          decide
        · exact mem_natDec n c hc
  · split at hc
    · rcases List.mem_cons.mp hc with hc | hc
      · rw [hc]
        decide
      · rcases List.mem_cons.mp hc with hc | hc
        · rw [hc]
          decide
        · exact mem_natDec n c hc
    · split at hc
      · rcases List.mem_cons.mp hc with hc | hc
        · rw [hc]
          decide
        · exact mem_natDec n c hc
      · exact mem_natDec n c hc

theorem pad2_ne_nil (n : Nat) : pad2 n ≠ [] := by
  unfold pad2
  split
  · simp
  · exact natDec_ne_nil n

theorem isDigit_ne {c : Char} (h : c.isDigit = true) :
    c ≠ ' ' ∧ c ≠ '>' ∧ c ≠ ':' ∧ c ≠ '[' ∧ c ≠ ']' ∧ c ≠ '-' := by
  refine ⟨?_, ?_, ?_, ?_, ?_, ?_⟩ <;>
    exact fun hc => by rw [hc] at h; exact absurd h (by decide)

theorem isAlpha_ne {c : Char} (h : c.isAlpha = true) : c ≠ ' ' ∧ c ≠ '1' := by
  constructor <;> exact fun hc => by rw [hc] at h; exact absurd h (by decide)

theorem monthAbbrev_alpha (m : Fin 12) :
    (monthAbbrev m).all Char.isAlpha = true := by
  fin_cases m <;> decide

theorem monthAbbrev_ne_nil (m : Fin 12) : monthAbbrev m ≠ [] := by
  fin_cases m <;> decide

theorem monthAbbrev_not_one_cons (m : Fin 12) (l : List Char) :
    monthAbbrev m ≠ '1' :: l := by
  fin_cases m <;> exact fun h => by injection h with h1 h2; exact absurd h1 (by decide)

theorem splitOn_append (stop : Char) :
    ∀ (t r : List Char), stop ∉ t → splitOn stop (t ++ stop :: r) = some (t, r)
  | [], r, _ => by simp [splitOn]
  | c :: t, r, h => by
    rw [List.mem_cons] at h
    push_neg at h
    have hc : ¬ c = stop := fun hh => h.1 hh.symm
    simp only [List.cons_append, splitOn, if_neg hc, List.append_eq]
    rw [splitOn_append stop t r h.2]

theorem splitOn_not_mem (stop : Char) :
    ∀ (l : List Char), stop ∉ l → splitOn stop l = none
  | [], _ => rfl
  | c :: t, h => by
    rw [List.mem_cons] at h
    push_neg at h
    have hc : ¬ c = stop := fun hh => h.1 hh.symm
    simp only [splitOn, if_neg hc]
    rw [splitOn_not_mem stop t h.2]

theorem splitToken_append (t r : List Char) (hsp : ' ' ∉ t) (hne : t ≠ []) :
    splitToken (t ++ ' ' :: r) = some (t, r) := by
  unfold splitToken
  rw [splitOn_append ' ' t r hsp]
  simp [hne]

theorem parseTagPid_no_bracket (tp : List Char) (h : '[' ∉ tp) :
    parseTagPid tp = some (tp, []) := by
  unfold parseTagPid
  rw [splitOn_not_mem '[' tp h]

theorem parseTagPid_bracket (tg pid : List Char) (h1 : '[' ∉ tg)
    (h2 : ']' ∉ pid) :
    parseTagPid (tg ++ '[' :: (pid ++ [']'])) = some (tg, pid) := by
  unfold parseTagPid
  rw [splitOn_append '[' tg _ h1]
  simp [splitOn_append ']' pid [] h2]

theorem mem_intDec (q : Int) : ∀ c ∈ intDec q, c = '-' ∨ c.isDigit = true := by
  intro c hc
  unfold intDec at hc
  split at hc
  · rcases List.mem_cons.mp hc with hc | hc
    · exact Or.inl hc
    · exact Or.inr (mem_natDec _ c hc)
  · exact Or.inr (mem_natDec _ c hc)

theorem intDec_no_gt (q : Int) : '>' ∉ intDec q := by
  intro h
  rcases mem_intDec q _ h with h1 | h1
  · exact absurd h1 (by decide)
  · exact absurd h1 (by decide)

theorem rfc5424Timestamp_chars (t : GoTime) :
    ∀ c ∈ rfc5424Timestamp t,
      c.isDigit = true ∨ c = '-' ∨ c = 'T' ∨ c = ':' ∨ c = '.' ∨ c = 'Z' := by
  intro c hc
  unfold rfc5424Timestamp at hc
  simp only [List.mem_append, List.mem_cons, List.not_mem_nil, or_false] at hc
  rcases hc with (((((((((((((hc | hc) | hc) | hc) | hc) | hc) | hc) | hc) | hc) | hc) | hc) | hc) | hc) | hc) <;>
    first
      | exact Or.inl (mem_pad4 _ _ hc)
      | exact Or.inl (mem_pad2 _ _ hc)
      | exact Or.inl (mem_pad3 _ _ hc)
      | tauto

theorem rfc5424Timestamp_no_space (t : GoTime) : ' ' ∉ rfc5424Timestamp t := by
  intro h
  rcases rfc5424Timestamp_chars t ' ' h with h1 | h1 | h1 | h1 | h1 | h1 <;>
    exact absurd h1 (by decide)

theorem rfc5424Timestamp_ne_nil (t : GoTime) : rfc5424Timestamp t ≠ [] := by
  unfold rfc5424Timestamp pad4
  split <;> simp

theorem splitToken_dash (r : List Char) :
    splitToken ('-' :: ' ' :: r) = some (['-'], r) := by
  have h : ('-' :: ' ' :: r) = ['-'] ++ ' ' :: r := rfl
  rw [h]
  exact splitToken_append ['-'] r (by decide) (by decide)

/-- The RFC5424 round trip: parsing an encoded line recovers the six
compared fields, provided the hostname, tag and PID contain no space and
are not the literal dash (and the tag is non-empty, since an empty tag
encodes as the default label). -/
theorem parse_format_rfc5424 (m : Message)
    (hp0 : 0 ≤ m.Priority)
    (hhost_sp : ' ' ∉ m.Hostname) (hhost_dash : m.Hostname ≠ ['-'])
    (htag_ne : m.Tag ≠ []) (htag_sp : ' ' ∉ m.Tag) (htag_dash : m.Tag ≠ ['-'])
    (hpid_sp : ' ' ∉ m.PID) (hpid_dash : m.PID ≠ ['-']) :
    ParseRFC5424 (formatRFC5424 m) =
      some { Priority := m.Priority,
             TsText := rfc5424Timestamp m.Timestamp.utc,
             Hostname := m.Hostname, Tag := m.Tag, PID := m.PID,
             Content := m.Content, Fmt := SyslogFormat.rfc5424 } := by
  have hpri : intDec m.Priority = natDec m.Priority.toNat := by
    unfold intDec
    rw [if_neg (by omega : ¬ m.Priority < 0)]
  have hhost : ' ' ∉ rfc5424Hostname m ∧ rfc5424Hostname m ≠ [] ∧
      dashEmpty (rfc5424Hostname m) = m.Hostname := by
    unfold rfc5424Hostname dashEmpty
    by_cases h : m.Hostname = [] <;> simp [h, hhost_sp, hhost_dash]
  have happ : ' ' ∉ rfc5424AppName m ∧ rfc5424AppName m ≠ [] ∧
      dashEmpty (rfc5424AppName m) = m.Tag := by
    unfold rfc5424AppName dashEmpty
    simp [htag_ne, htag_sp, htag_dash]
  have hpid : ' ' ∉ rfc5424ProcID m ∧ rfc5424ProcID m ≠ [] ∧
      dashEmpty (rfc5424ProcID m) = m.PID := by
    unfold rfc5424ProcID dashEmpty
    by_cases h : m.PID = [] <;> simp [h, hpid_sp, hpid_dash]
  have hts_sp := rfc5424Timestamp_no_space m.Timestamp.utc
  have hts_ne := rfc5424Timestamp_ne_nil m.Timestamp.utc
  simp only [formatRFC5424, hpri, List.singleton_append, List.cons_append,
    List.append_assoc, List.nil_append]
  simp only [ParseRFC5424]
  rw [splitOn_append '>' _ _ (by
    intro h
    exact absurd (mem_natDec _ _ h) (by decide))]
  simp only [natDec_ne_nil, allDigits_natDec, Bool.not_true, reduceIte]
  rw [splitToken_append _ _ hts_sp hts_ne]
  dsimp only
  rw [splitToken_append _ _ hhost.1 hhost.2.1]
  dsimp only
  rw [splitToken_append _ _ happ.1 happ.2.1]
  dsimp only
  rw [splitToken_append _ _ hpid.1 hpid.2.1]
  dsimp only
  rw [splitToken_dash]
  dsimp only
  rw [splitToken_dash]
  dsimp only
  rw [hhost.2.2, happ.2.2, hpid.2.2, parseNat_natDec,
    Int.toNat_of_nonneg hp0]
  simp

theorem allDigits_pad2 (n : Nat) : allDigits (pad2 n) = true := by
  unfold allDigits
  rw [List.all_eq_true]
  intro c hc
  exact mem_pad2 n c hc

theorem pad2_no_space (n : Nat) : ' ' ∉ pad2 n := by
  intro h
  exact absurd (mem_pad2 n ' ' h) (by decide)

theorem timePart_chars (a b c : Nat) :
    ∀ ch ∈ pad2 a ++ [':'] ++ pad2 b ++ [':'] ++ pad2 c,
      ch.isDigit = true ∨ ch = ':' := by
  intro ch hch
  simp only [List.mem_append, List.mem_cons, List.not_mem_nil, or_false] at hch
  rcases hch with (((hch | hch) | hch) | hch) | hch <;>
    first
      | exact Or.inl (mem_pad2 _ _ hch)
      | tauto

theorem timePart_all (a b c : Nat) :
    (pad2 a ++ [':'] ++ pad2 b ++ [':'] ++ pad2 c).all
      (fun ch => ch.isDigit || ch = ':') = true := by
  rw [List.all_eq_true]
  intro ch hch
  rcases timePart_chars a b c ch hch with h | h
  · simp [h]
  · simp [h]

theorem timePart_no_space (a b c : Nat) :
    ' ' ∉ pad2 a ++ [':'] ++ pad2 b ++ [':'] ++ pad2 c := by
  intro h
  rcases timePart_chars a b c ' ' h with h1 | h1 <;> exact absurd h1 (by decide)

theorem timePart_ne_nil (a b c : Nat) :
    pad2 a ++ [':'] ++ pad2 b ++ [':'] ++ pad2 c ≠ [] := by
  simp [List.append_eq_nil, pad2_ne_nil]

theorem splitToken_time (a b c : Nat) (r : List Char) :
    splitToken (pad2 a ++ (':' :: (pad2 b ++ (':' :: (pad2 c ++ (' ' :: r)))))) =
      some (pad2 a ++ [':'] ++ pad2 b ++ [':'] ++ pad2 c, r) := by
  have hshape : pad2 a ++ (':' :: (pad2 b ++ (':' :: (pad2 c ++ (' ' :: r))))) =
      (pad2 a ++ [':'] ++ pad2 b ++ [':'] ++ pad2 c) ++ ' ' :: r := by
    simp
  rw [hshape]
  exact splitToken_append _ _ (timePart_no_space a b c) (timePart_ne_nil a b c)

theorem monthAbbrev_no_space (mo : Fin 12) : ' ' ∉ monthAbbrev mo := by
  intro h
  have h1 := List.all_eq_true.mp (monthAbbrev_alpha mo) ' ' h
  exact absurd h1 (by decide)

theorem rfc3164TagPart_spec (m : Message)
    (htag_ne : m.Tag ≠ []) (htag_col : ':' ∉ m.Tag) (htag_br : '[' ∉ m.Tag)
    (hpid_col : ':' ∉ m.PID) (hpid_br : ']' ∉ m.PID) :
    rfc3164TagPart m ≠ [] ∧ ':' ∉ rfc3164TagPart m ∧
      parseTagPid (rfc3164TagPart m) = some (m.Tag, m.PID) := by
  by_cases hp : m.PID = []
  · have he : rfc3164TagPart m = m.Tag := by
      unfold rfc3164TagPart
      simp [hp, htag_ne]
    rw [he]
    refine ⟨htag_ne, htag_col, ?_⟩
    rw [parseTagPid_no_bracket _ htag_br, hp]
  · have he : rfc3164TagPart m = m.Tag ++ '[' :: (m.PID ++ [']']) := by
      unfold rfc3164TagPart
      simp [hp, List.append_eq_nil]
    rw [he]
    have hne : m.Tag ++ '[' :: (m.PID ++ [']']) ≠ [] := by
      simp [List.append_eq_nil]
    refine ⟨hne, ?_, parseTagPid_bracket m.Tag m.PID htag_br hpid_br⟩
    intro h
    simp only [List.mem_append, List.mem_cons, List.not_mem_nil, or_false] at h
    rcases h with h | h | h | h
    · exact htag_col h
    · exact absurd h (by decide)
    · exact hpid_col h
    · exact absurd h (by decide)

/-- The RFC3164 round trip: parsing an encoded line recovers the six
compared fields, provided the hostname is a non-empty space-free token
and the tag and PID avoid the structural delimiters (space, colon and
brackets) the format uses. -/
theorem parse_format_rfc3164 (m : Message)
    (hp0 : 0 ≤ m.Priority)
    (hhost_ne : m.Hostname ≠ []) (hhost_sp : ' ' ∉ m.Hostname)
    (htag_ne : m.Tag ≠ []) (htag_sp : ' ' ∉ m.Tag)
    (htag_col : ':' ∉ m.Tag) (htag_br : '[' ∉ m.Tag)
    (hpid_col : ':' ∉ m.PID) (hpid_br : ']' ∉ m.PID) :
    ParseRFC3164 (formatRFC3164 m) =
      some { Priority := m.Priority,
             TsText := rfc3164Timestamp m.Timestamp.loc,
             Hostname := m.Hostname, Tag := m.Tag, PID := m.PID,
             Content := m.Content, Fmt := SyslogFormat.rfc3164 } := by
  have hpri : intDec m.Priority = natDec m.Priority.toNat := by
    unfold intDec
    rw [if_neg (by omega : ¬ m.Priority < 0)]
  have htp := rfc3164TagPart_spec m htag_ne htag_col htag_br hpid_col hpid_br
  simp only [formatRFC3164, rfc3164Timestamp, hpri, List.singleton_append,
    List.cons_append, List.append_assoc, List.nil_append]
  simp only [ParseRFC3164]
  rw [splitOn_append '>' _ _ (by
    intro h
    exact absurd (mem_natDec _ _ h) (by decide))]
  simp only [natDec_ne_nil, allDigits_natDec, Bool.not_true, reduceIte]
  rw [splitToken_append _ _ (monthAbbrev_no_space _) (monthAbbrev_ne_nil _)]
  try dsimp only
  simp only [monthAbbrev_alpha, Bool.not_true, reduceIte]
  rw [splitToken_append _ _ (pad2_no_space _) (pad2_ne_nil _)]
  try dsimp only
  simp only [allDigits_pad2, Bool.not_true, reduceIte]
  rw [splitToken_time]
  try dsimp only
  simp only [timePart_all, Bool.not_true, reduceIte]
  rw [splitToken_append _ _ hhost_sp hhost_ne]
  try dsimp only
  rw [splitOn_append ':' _ _ htp.2.1]
  try dsimp only
  rw [if_neg htp.1]
  try dsimp only
  rw [htp.2.2]
  try dsimp only
  rw [parseNat_natDec, Int.toNat_of_nonneg hp0]
  simp

/-- An RFC3164-encoded line never parses as RFC5424: after the priority
the line continues with an alphabetic month abbreviation, not with the
version character `1`. -/
theorem monthAbbrev_cases (mo : Fin 12) :
    monthAbbrev mo = ['J', 'a', 'n'] ∨ monthAbbrev mo = ['F', 'e', 'b'] ∨
    monthAbbrev mo = ['M', 'a', 'r'] ∨ monthAbbrev mo = ['A', 'p', 'r'] ∨
    monthAbbrev mo = ['M', 'a', 'y'] ∨ monthAbbrev mo = ['J', 'u', 'n'] ∨
    monthAbbrev mo = ['J', 'u', 'l'] ∨ monthAbbrev mo = ['A', 'u', 'g'] ∨
    monthAbbrev mo = ['S', 'e', 'p'] ∨ monthAbbrev mo = ['O', 'c', 't'] ∨
    monthAbbrev mo = ['N', 'o', 'v'] ∨ monthAbbrev mo = ['D', 'e', 'c'] := by
  fin_cases mo <;> simp [monthAbbrev]

theorem parse5424_of_3164 (m : Message) (hp0 : 0 ≤ m.Priority) :
    ParseRFC5424 (formatRFC3164 m) = none := by
  have hpri : intDec m.Priority = natDec m.Priority.toNat := by
    unfold intDec
    rw [if_neg (by omega : ¬ m.Priority < 0)]
  simp only [formatRFC3164, rfc3164Timestamp, hpri, List.singleton_append,
    List.cons_append, List.append_assoc, List.nil_append]
  simp only [ParseRFC5424]
  rw [splitOn_append '>' _ _ (by
    intro h
    exact absurd (mem_natDec _ _ h) (by decide))]
  simp only [natDec_ne_nil, allDigits_natDec, Bool.not_true, reduceIte]
  rcases monthAbbrev_cases m.Timestamp.loc.month with
    h | h | h | h | h | h | h | h | h | h | h | h <;> rw [h] <;> rfl

/-- A run of the SYN_SENT loop whose first `k` outcomes are all discarded
makes exactly `k` receive calls, sends nothing and fails. -/
theorem synSentLoop_all_discarded (c : HSConn) :
    ∀ (k : Nat) (outcomes : List RecvOutcome),
      (∀ o ∈ outcomes.take k, discarded c o = true) →
      synSentLoop c k outcomes = (HSResult.failed, k, [])
  | 0, _, _ => rfl
  | k + 1, [], _ => by
    have ih := synSentLoop_all_discarded c k [] (by simp)
    simp [synSentLoop, ih]
  | k + 1, RecvOutcome.timeout :: rest, h => by
    have ih := synSentLoop_all_discarded c k rest (by
      intro o ho
      exact h o (by simp [List.take_succ_cons, ho]))
    simp [synSentLoop, ih]
  | k + 1, RecvOutcome.recvErr :: rest, h => by
    exfalso
    have hh := h RecvOutcome.recvErr (by simp [List.take_succ_cons])
    simp [discarded] at hh
  | k + 1, RecvOutcome.datagram buf :: rest, h => by
    have hacc : acceptsSynAck c buf = false := by
      have hh := h (RecvOutcome.datagram buf) (by simp [List.take_succ_cons])
      simpa [discarded] using hh
    have ih := synSentLoop_all_discarded c k rest (by
      intro o ho
      exact h o (by simp [List.take_succ_cons, ho]))
    simp [synSentLoop, hacc, ih]

/-- C2 counterexample: on the concrete valid SYN+ACK reply whose sequence
field is 1000 and acknowledgment field is 2000, the engine sets its
acknowledgment number to 2001 — the reply's acknowledgment field plus one —
not to 1001 = peer sequence + 1 as the claim states. -/
theorem C2_ack_adoption_counterexample :
    synSentLoop handshakeConn maxRetries [RecvOutcome.datagram synAckPacket] =
      (HSResult.established 1000 2001, 1, [16]) ∧
    be32 synAckPacket (ipHeaderLen synAckPacket + 4) = 1000 ∧
    (2001 : Nat) ≠ 1000 + 1 := by
  refine ⟨by decide, by decide, by decide⟩

/-- C2 amended: when the SYN_SENT loop accepts a valid SYN+ACK reply it
sets its acknowledgment number to the reply's acknowledgment-number field
plus 1 (a `uint32` addition) and its sequence number to the reply's
sequence-number field, sends an ACK packet with TCP flags 0x10, and
reports the connection established. -/
theorem C2_ack_adoption (c : HSConn) (buf : List Nat)
    (rest : List RecvOutcome) (retries : Nat)
    (h : acceptsSynAck c buf = true) :
    synSentLoop c (retries + 1) (RecvOutcome.datagram buf :: rest) =
      (HSResult.established (be32 buf (ipHeaderLen buf + 4))
        ((be32 buf (ipHeaderLen buf + 8) + 1) % 4294967296), 1, [16]) := by
  simp [synSentLoop, h]

/-- Witness for C2 on the concrete SYN+ACK reply. -/
theorem C2_ack_adoption_witness :
    acceptsSynAck handshakeConn synAckPacket = true ∧
    synSentLoop handshakeConn 5 [RecvOutcome.datagram synAckPacket] =
      (HSResult.established (be32 synAckPacket (ipHeaderLen synAckPacket + 4))
        ((be32 synAckPacket (ipHeaderLen synAckPacket + 8) + 1) % 4294967296),
        1, [16]) :=
  ⟨by decide,
    C2_ack_adoption handshakeConn synAckPacket [] 4 (by decide)⟩

/-- C3 counterexample: five datagrams that fail the acceptance filter
exhaust the whole retry budget — each discarded datagram consumes a retry
attempt — so a valid SYN+ACK available on a sixth read is never seen and
the engine fails, refuting the claim that filtered datagrams are discarded
without consuming an attempt. -/
theorem C3_retry_budget_counterexample :
    synSentLoop handshakeConn maxRetries
      [RecvOutcome.datagram junkPacket, RecvOutcome.datagram junkPacket,
       RecvOutcome.datagram junkPacket, RecvOutcome.datagram junkPacket,
       RecvOutcome.datagram junkPacket, RecvOutcome.datagram synAckPacket] =
      (HSResult.failed, 5, []) ∧
    acceptsSynAck handshakeConn synAckPacket = true := by
  refine ⟨by decide, by decide⟩

/-- C3 amended: every receive attempt — one whose read times out as well
as one that returns a datagram failing the acceptance filter — consumes
one of the 5 retry attempts; whenever the first five outcomes are all
discarded (in particular when the reader only ever times out) the engine
reports failure after exactly 5 receive calls, never 4 or 6. -/
theorem C3_retry_budget (c : HSConn) (outcomes : List RecvOutcome)
    (h : ∀ o ∈ outcomes.take 5, discarded c o = true) :
    synSentLoop c maxRetries outcomes = (HSResult.failed, 5, []) :=
  synSentLoop_all_discarded c 5 outcomes h

/-- Witness for C3: a reader that only ever times out fails after
exactly 5 receive calls. -/
theorem C3_retry_budget_witness :
    (∀ o ∈ (List.take 5 ([] : List RecvOutcome)), discarded handshakeConn o = true) ∧
    synSentLoop handshakeConn maxRetries [] = (HSResult.failed, 5, []) :=
  ⟨by simp, C3_retry_budget handshakeConn [] (by simp)⟩

/-- C4 counterexample: at `UnixNano()` with low 16 bits 32768 the 16-bit
addition wraps and the chosen ephemeral source port is 0, below 32768,
refuting the claim that every execution chooses a port of at least 32768. -/
theorem C4_ephemeral_port_counterexample :
    ephemeralSrcPort 32768 = 0 ∧ ¬ 32768 ≤ ephemeralSrcPort 32768 := by
  refine ⟨by decide, by decide⟩

/-- C4 amended: the ephemeral source port, computed in 16-bit unsigned
arithmetic as `uint16(nano & 0xFFFF) + 32768`, is at least 32768 exactly
when the low 16 bits of the timestamp are below 32768; for the other half
of the timestamp values the addition wraps below 32768. -/
theorem C4_ephemeral_port_range (nano : Nat) :
    32768 ≤ ephemeralSrcPort nano ↔ nano % 65536 < 32768 := by
  unfold ephemeralSrcPort
  rw [and65535_eq]
  omega

theorem chain_le_of_le {b a : Nat} {l : List Nat} (h : b ≤ a)
    (hc : List.Chain (· ≤ ·) a l) : List.Chain (· ≤ ·) b l := by
  cases l with
  | nil => exact List.Chain.nil
  | cons x xs =>
    rw [List.chain_cons] at hc ⊢
    exact ⟨le_trans h hc.1, hc.2⟩

theorem getLastD_le {l : List Nat} {a b : Nat} (h : a ≤ b) :
    l.getLastD a ≤ l.getLastD b := by
  cases l with
  | nil => exact h
  | cons x xs =>
    rw [List.getLastD_cons, List.getLastD_cons]

/-- Each grant of the rate limiter advances the reference time by at least
one interval, so the grant count is bounded by the reference-time advance. -/
theorem runAllow_ref_ge :
    ∀ (ts : List Nat) (interval last : Nat), 0 < interval →
      (runAllow interval last ts).1 * interval + last ≤ (runAllow interval last ts).2
  | [], interval, last, _ => by simp [runAllow]
  | t :: ts, interval, last, hpos => by
    by_cases hg : interval ≤ t - last
    · have hq1 : 1 ≤ (t - last) / interval := (Nat.one_le_div_iff hpos).mpr hg
      have hint : interval ≤ ((t - last) / interval) * interval := by
        calc interval = 1 * interval := (Nat.one_mul interval).symm
        _ ≤ ((t - last) / interval) * interval := Nat.mul_le_mul_right interval hq1
      have ih := runAllow_ref_ge ts interval
        (last + ((t - last) / interval) * interval) hpos
      have hstep : allowStep interval last t =
          (true, last + ((t - last) / interval) * interval) := by
        simp [allowStep, hg]
      simp only [runAllow, hstep]
      rcases hrun : runAllow interval (last + ((t - last) / interval) * interval) ts
        with ⟨n, lf⟩
      rw [hrun] at ih
      simp only [if_true]
      have hsucc : (n + 1) * interval = n * interval + interval := Nat.succ_mul n interval
      simp only [] at ih
      omega
    · have hstep : allowStep interval last t = (false, last) := by
        simp [allowStep, hg]
      have ih := runAllow_ref_ge ts interval last hpos
      simp only [runAllow, hstep]
      rcases hrun : runAllow interval last ts with ⟨n, lf⟩
      rw [hrun] at ih
      simpa using ih

/-- The rate limiter's reference time never runs ahead of the latest
(monotone) call time. -/
theorem runAllow_ref_le :
    ∀ (ts : List Nat) (interval last : Nat),
      List.Chain (· ≤ ·) last ts →
      (runAllow interval last ts).2 ≤ ts.getLastD last
  | [], _, last, _ => by simp [runAllow, List.getLastD]
  | t :: ts, interval, last, hchain => by
    rw [List.chain_cons] at hchain
    obtain ⟨hlt, hch⟩ := hchain
    rw [List.getLastD_cons]
    by_cases hg : interval ≤ t - last
    · have hml : ((t - last) / interval) * interval ≤ t - last :=
        Nat.div_mul_le_self _ _
      have hl't : last + ((t - last) / interval) * interval ≤ t := by omega
      have hch' : List.Chain (· ≤ ·)
          (last + ((t - last) / interval) * interval) ts :=
        chain_le_of_le hl't hch
      have ih := runAllow_ref_le ts interval
        (last + ((t - last) / interval) * interval) hch'
      have hstep : allowStep interval last t =
          (true, last + ((t - last) / interval) * interval) := by
        simp [allowStep, hg]
      simp only [runAllow, hstep]
      rcases hrun : runAllow interval (last + ((t - last) / interval) * interval) ts
        with ⟨n, lf⟩
      rw [hrun] at ih
      calc lf ≤ ts.getLastD (last + ((t - last) / interval) * interval) := ih
      _ ≤ ts.getLastD t := getLastD_le hl't
    · have hstep : allowStep interval last t = (false, last) := by
        simp [allowStep, hg]
      have ih := runAllow_ref_le ts interval last (chain_le_of_le hlt hch)
      simp only [runAllow, hstep]
      rcases hrun : runAllow interval last ts with ⟨n, lf⟩
      rw [hrun] at ih
      calc lf ≤ ts.getLastD last := ih
      _ ≤ ts.getLastD t := getLastD_le hlt

/-- C7: whenever an `Allow` or `Wait` call observes at least one elapsed
interval it advances the reference time by exactly the number of whole
elapsed intervals (`floor(elapsed/interval) * interval`) rather than
resetting it to the current time, and consequently over any monotone
sequence of `Allow` calls the number of grants times the interval never
exceeds the span from the initial reference time to the last call time —
an idle gap is never compensated by a burst. -/
theorem C7_rate_limiter_no_burst (interval last : Nat) (ts : List Nat)
    (hpos : 0 < interval) (hchain : List.Chain (· ≤ ·) last ts) :
    (∀ now, interval ≤ now - last →
      allowStep interval last now =
        (true, last + ((now - last) / interval) * interval) ∧
      waitStep interval last now =
        (now, last + ((now - last) / interval) * interval)) ∧
    (runAllow interval last ts).1 * interval + last ≤ ts.getLastD last := by
  constructor
  · intro now hnow
    constructor
    · simp [allowStep, hnow]
    · simp [waitStep, hnow]
  · calc (runAllow interval last ts).1 * interval + last
        ≤ (runAllow interval last ts).2 := runAllow_ref_ge ts interval last hpos
    _ ≤ ts.getLastD last := runAllow_ref_le ts interval last hchain

/-- Witness for C7: interval 10 ns, reference time 0, calls at 25, 25
and 31 ns; the first and third calls are granted, 2 * 10 + 0 ≤ 31. -/
theorem C7_rate_limiter_no_burst_witness :
    0 < 10 ∧ List.Chain (· ≤ ·) 0 [25, 25, 31] ∧
    ((∀ now, 10 ≤ now - 0 →
      allowStep 10 0 now = (true, 0 + ((now - 0) / 10) * 10) ∧
      waitStep 10 0 now = (now, 0 + ((now - 0) / 10) * 10)) ∧
    (runAllow 10 0 [25, 25, 31]).1 * 10 + 0 ≤ ([25, 25, 31] : List Nat).getLastD 0) :=
  ⟨by decide, by simp [List.chain_cons],
    C7_rate_limiter_no_burst 10 0 [25, 25, 31] (by decide) (by simp [List.chain_cons])⟩

/-- C8 counterexample: a probe read that completes without error
(`err == nil`, data present) is classified as alive by the pool, while
the claim says any outcome other than a timeout classifies the
connection as dead. -/
theorem C8_liveness_probe_counterexample :
    isConnectionValid "tcp" (some (ProbeRead.ok 1)) = true ∧
    ProbeRead.ok 1 ≠ ProbeRead.timeoutErr := by
  refine ⟨by decide, by decide⟩

/-- C8 amended: the liveness probe reports every (non-nil) UDP connection
valid; a TCP connection is classified alive exactly when the probe read
times out or completes without error, and dead on any other error. -/
theorem C8_liveness_probe (probe : ProbeRead) :
    isConnectionValid "udp" (some probe) = true ∧
    (isConnectionValid "tcp" (some probe) = true ↔
      probe = ProbeRead.timeoutErr ∨ ∃ n, probe = ProbeRead.ok n) := by
  cases probe <;> simp [isConnectionValid]

/-- C9: `NewRateLimiter` and `SetRate` derive the interval by an unguarded
integer division of one second (10^9 ns) by the rate; every positive rate
succeeds, and rate 0 hits a division by zero (a Go run-time panic),
so the public interface requires a positive rate. -/
theorem C9_rate_limiter_interval (r : Int) :
    (0 < r → rateLimiterInterval r = some (Int.tdiv 1000000000 r)) ∧
    (r = 0 → rateLimiterInterval r = none) := by
  constructor
  · intro h
    have hne : r ≠ 0 := by omega
    simp [rateLimiterInterval, hne]
  · intro h
    simp [rateLimiterInterval, h]

/-- Witness for C9 at rate 1000. -/
theorem C9_rate_limiter_interval_witness :
    (0 : Int) < 1000 ∧
    rateLimiterInterval 1000 = some (Int.tdiv 1000000000 1000) :=
  ⟨by decide, (C9_rate_limiter_interval 1000).1 (by decide)⟩

/-- C10: message creation and both encoders perform no validation of the
priority: `NewMessage` stores any integer unchanged, each encoder renders
every message (negative or out-of-range priorities included), the line
starts with an opening angle bracket, and the text up to the closing
bracket is exactly the literal decimal rendering of the priority. -/
theorem C10_no_priority_validation (p : Int) (hostname tag content : List Char)
    (fmt : SyslogFormat) (now : TimeModel) (m : Message) :
    (NewMessage p hostname tag content fmt now).Priority = p ∧
    ((formatRFC3164 m).head? = some '<' ∧
      ∃ rest, splitOn '>' (formatRFC3164 m).tail = some (intDec m.Priority, rest)) ∧
    ((formatRFC5424 m).head? = some '<' ∧
      ∃ rest, splitOn '>' (formatRFC5424 m).tail = some (intDec m.Priority, rest)) := by
  refine ⟨rfl, ⟨by simp [formatRFC3164], ?_⟩, ⟨by simp [formatRFC5424], ?_⟩⟩
  · refine ⟨rfc3164Timestamp m.Timestamp.loc ++ [' '] ++ m.Hostname ++ [' '] ++
      rfc3164TagPart m ++ [':', ' '] ++ m.Content, ?_⟩
    have ht : (formatRFC3164 m).tail = intDec m.Priority ++ '>' ::
        (rfc3164Timestamp m.Timestamp.loc ++ [' '] ++ m.Hostname ++ [' '] ++
          rfc3164TagPart m ++ [':', ' '] ++ m.Content) := by
      simp [formatRFC3164]
    rw [ht, splitOn_append '>' _ _ (intDec_no_gt m.Priority)]
  · refine ⟨'1' :: ' ' :: (rfc5424Timestamp m.Timestamp.utc ++ [' '] ++
      rfc5424Hostname m ++ [' '] ++ rfc5424AppName m ++ [' '] ++
      rfc5424ProcID m ++ [' ', '-', ' ', '-', ' '] ++ m.Content), ?_⟩
    have ht : (formatRFC5424 m).tail = intDec m.Priority ++ '>' ::
        ('1' :: ' ' :: (rfc5424Timestamp m.Timestamp.utc ++ [' '] ++
          rfc5424Hostname m ++ [' '] ++ rfc5424AppName m ++ [' '] ++
          rfc5424ProcID m ++ [' ', '-', ' ', '-', ' '] ++ m.Content)) := by
      simp [formatRFC5424]
    rw [ht, splitOn_append '>' _ _ (intDec_no_gt m.Priority)]

/-- C5 counterexample: a message whose app-name (tag) is empty renders the
literal default label `syslog_sender` in the APP field, not the single
character `-` the claim prescribes for every empty field. -/
theorem C5_rfc5424_empty_fields_counterexample :
    formatRFC5424 msgEmptyTag =
      ("<13>1 2024-01-02T03:04:05.006Z myhost syslog_sender - - - hello").toList ∧
    formatRFC5424 msgEmptyTag ≠
      ("<13>1 2024-01-02T03:04:05.006Z myhost - - - - hello").toList := by
  refine ⟨by decide, by decide⟩

/-- C5 amended: every RFC5424 line is
`<PRI>1 TIMESTAMP HOST APP PROCID MSGID SD CONTENT` with the timestamp
taken from the UTC view at millisecond precision; empty hostname and
procid render as `-` and msgid and structured data are always `-`, but an
empty app-name renders as the default label `syslog_sender`, not `-`. -/
theorem C5_rfc5424_format (m : Message) :
    formatRFC5424 m =
      ['<'] ++ intDec m.Priority ++ ['>', '1', ' '] ++
        rfc5424Timestamp m.Timestamp.utc ++ [' '] ++ rfc5424Hostname m ++
        [' '] ++ rfc5424AppName m ++ [' '] ++ rfc5424ProcID m ++
        [' ', '-', ' ', '-', ' '] ++ m.Content ∧
    (m.Hostname = [] → rfc5424Hostname m = ['-']) ∧
    (m.PID = [] → rfc5424ProcID m = ['-']) ∧
    (m.Tag = [] → rfc5424AppName m = defaultTag ∧ rfc5424AppName m ≠ ['-']) := by
  refine ⟨rfl, ?_, ?_, ?_⟩
  · intro h
    simp [rfc5424Hostname, h]
  · intro h
    simp [rfc5424ProcID, h]
  · intro h
    have h1 : rfc5424AppName m = defaultTag := by simp [rfc5424AppName, h]
    rw [h1]
    exact ⟨rfl, by decide⟩

/-- Witness for C5 on the concrete empty-tag message. -/
theorem C5_rfc5424_format_witness :
    rfc5424AppName msgEmptyTag = defaultTag ∧ rfc5424AppName msgEmptyTag ≠ ['-'] :=
  (C5_rfc5424_format msgEmptyTag).2.2.2 rfl

/-- C6 counterexample: for the RFC5424 message with an empty tag, the
encoder substitutes the default label, so decoding the encoded line
yields Tag = `syslog_sender`, not the original empty tag — the round
trip does not preserve Tag for every message. -/
theorem C6_round_trip_counterexample :
    (decode (Message.encode msgEmptyTag)).map Decoded.Tag =
      some (("syslog_sender").toList) ∧
    msgEmptyTag.Tag = [] ∧
    ("syslog_sender").toList ≠ ([] : List Char) := by
  refine ⟨by decide, by decide, by decide⟩

/-- C6 amended: for every message whose priority lies in [0, 191], whose
hostname is a non-empty space-free token other than `-`, whose tag is
non-empty, avoids the structural delimiters (space, colon, bracket) and
is not `-`, and whose PID likewise avoids the delimiters and is not `-`,
decoding the encoded line recovers Priority, Hostname, Tag, PID, Content
and Format exactly, for both wire formats (the timestamp text is carried
verbatim; its reconstruction into a date is the documented lossy part). -/
theorem C6_round_trip (m : Message)
    (hp : 0 ≤ m.Priority ∧ m.Priority ≤ 191)
    (hhost : m.Hostname ≠ [] ∧ ' ' ∉ m.Hostname ∧ m.Hostname ≠ ['-'])
    (htag : m.Tag ≠ [] ∧ ' ' ∉ m.Tag ∧ ':' ∉ m.Tag ∧ '[' ∉ m.Tag ∧ m.Tag ≠ ['-'])
    (hpid : ' ' ∉ m.PID ∧ ':' ∉ m.PID ∧ ']' ∉ m.PID ∧ m.PID ≠ ['-']) :
    decode (Message.encode m) =
      some { Priority := m.Priority,
             TsText := match m.Fmt with
               | SyslogFormat.rfc5424 => rfc5424Timestamp m.Timestamp.utc
               | SyslogFormat.rfc3164 => rfc3164Timestamp m.Timestamp.loc,
             Hostname := m.Hostname, Tag := m.Tag, PID := m.PID,
             Content := m.Content, Fmt := m.Fmt } := by
  obtain ⟨hp0, _⟩ := hp
  cases hfmt : m.Fmt with
  | rfc5424 =>
    unfold Message.encode decode
    rw [hfmt]
    dsimp only
    rw [parse_format_rfc5424 m hp0 hhost.2.1 hhost.2.2 htag.1 htag.2.1
      htag.2.2.2.2 hpid.1 hpid.2.2.2]
  | rfc3164 =>
    unfold Message.encode decode
    rw [hfmt]
    dsimp only
    rw [parse5424_of_3164 m hp0]
    dsimp only
    rw [parse_format_rfc3164 m hp0 hhost.1 hhost.2.1 htag.1 htag.2.1
      htag.2.2.1 htag.2.2.2.1 hpid.2.1 hpid.2.2.1]

/-- Witness for C6 on a concrete RFC3164 message with all fields set. -/
theorem C6_round_trip_witness :
    (0 ≤ msgRoundTrip.Priority ∧ msgRoundTrip.Priority ≤ 191) ∧
    (msgRoundTrip.Hostname ≠ [] ∧ ' ' ∉ msgRoundTrip.Hostname ∧
      msgRoundTrip.Hostname ≠ ['-']) ∧
    (msgRoundTrip.Tag ≠ [] ∧ ' ' ∉ msgRoundTrip.Tag ∧ ':' ∉ msgRoundTrip.Tag ∧
      '[' ∉ msgRoundTrip.Tag ∧ msgRoundTrip.Tag ≠ ['-']) ∧
    (' ' ∉ msgRoundTrip.PID ∧ ':' ∉ msgRoundTrip.PID ∧
      ']' ∉ msgRoundTrip.PID ∧ msgRoundTrip.PID ≠ ['-']) ∧
    decode (Message.encode msgRoundTrip) =
      some { Priority := msgRoundTrip.Priority,
             TsText := rfc3164Timestamp msgRoundTrip.Timestamp.loc,
             Hostname := msgRoundTrip.Hostname, Tag := msgRoundTrip.Tag,
             PID := msgRoundTrip.PID, Content := msgRoundTrip.Content,
             Fmt := msgRoundTrip.Fmt } :=
  ⟨⟨by decide, by decide⟩, ⟨by decide, by decide, by decide⟩,
    ⟨by decide, by decide, by decide, by decide, by decide⟩,
    ⟨by decide, by decide, by decide, by decide⟩,
    C6_round_trip msgRoundTrip ⟨by decide, by decide⟩
      ⟨by decide, by decide, by decide⟩
      ⟨by decide, by decide, by decide, by decide, by decide⟩
      ⟨by decide, by decide, by decide, by decide⟩⟩

end SyslogGo
